import Mathlib

/-
  Verification of the Hierarchical Legal Document Segmenter
  (src/src/ingestion/parser.py, class NepaliLegalParser).

  The segmenter is embedded shallowly: the input is the ordered list of
  extracted text lines (`text_lines` in the source; PDF text extraction is an
  excluded collaborator), strings are Lean `String`s manipulated through their
  underlying character lists, and the two mutating passes of `parse` become
  explicit state records folded over the line stream.  Every definition is
  translated from the source; regex matching is unfolded into explicit
  character scanning (the patterns involved are simple enough that greedy
  maximal-munch scanning is exactly the regex semantics; this is argued at
  each matcher).
-/

namespace NepaliLegalParser

/-- Characters accepted by the digit class `[०-९0-9]` used by the
parser's regexes: ASCII `0`–`9` or Devanagari `०`–`९` (U+0966–U+096F). -/
def isEitherDigit (c : Char) : Bool :=
  (48 ≤ c.toNat && c.toNat ≤ 57) || (0x966 ≤ c.toNat && c.toNat ≤ 0x96F)

/-- Devanagari digit class `[०-९]`. -/
def isDevDigit (c : Char) : Bool :=
  0x966 ≤ c.toNat && c.toNat ≤ 0x96F

/-- Model of Python's `\s` (equivalently `str.isspace`) on `str` patterns:
ASCII whitespace `\t\n\v\f\r`, the separator controls U+001C–U+001F, space,
NEL, NBSP, and the Unicode space separators. -/
def isPySpace (c : Char) : Bool :=
  (9 ≤ c.toNat && c.toNat ≤ 13) || (28 ≤ c.toNat && c.toNat ≤ 32) ||
  c.toNat = 133 || c.toNat = 160 || c.toNat = 0x1680 ||
  (0x2000 ≤ c.toNat && c.toNat ≤ 0x200A) ||
  c.toNat = 0x2028 || c.toNat = 0x2029 || c.toNat = 0x202F ||
  c.toNat = 0x205F || c.toNat = 0x3000

/-- The class `[\s-]` appearing in the structural marker patterns. -/
def isWsHyphen (c : Char) : Bool :=
  isPySpace c || c.toNat = 45

/-- Model of Python `str.isdigit` on single characters, restricted to the
character repertoire relevant here: ASCII, Devanagari and Arabic-Indic
decimal digits, plus the superscript digits `¹ ² ³` (which Python counts as
digits although they are matched by none of the parser's digit classes). -/
def pyIsDigit (c : Char) : Bool :=
  (48 ≤ c.toNat && c.toNat ≤ 57) || (0x966 ≤ c.toNat && c.toNat ≤ 0x96F) ||
  (0x660 ≤ c.toNat && c.toNat ≤ 0x669) ||
  c.toNat = 0xB2 || c.toNat = 0xB3 || c.toNat = 0xB9

/-- Model of Python regex `\d` (Unicode category Nd), restricted to the
ASCII, Devanagari and Arabic-Indic decimal digit blocks. -/
def pyIsDigitNd (c : Char) : Bool :=
  (48 ≤ c.toNat && c.toNat ≤ 57) || (0x966 ≤ c.toNat && c.toNat ≤ 0x96F) ||
  (0x660 ≤ c.toNat && c.toNat ≤ 0x669)

/-- Python `str.split(sep)` for a single-character separator: empty pieces
are kept and `"".split(sep) = [""]`; the result is always non-empty. -/
def splitCh (sep : Char) : List Char → List (List Char)
  | [] => [[]]
  | c :: cs =>
    match splitCh sep cs with
    | [] => [[]]
    | h :: t => if c = sep then [] :: h :: t else (c :: h) :: t

/-- Python `sep.join(pieces)` for a single-character separator. -/
def joinCh (sep : Char) : List (List Char) → List Char
  | [] => []
  | [l] => l
  | l :: l2 :: ls => l ++ sep :: joinCh sep (l2 :: ls)

/-- Python `str.strip()`: drop leading and trailing whitespace. -/
def stripChars (cs : List Char) : List Char :=
  ((cs.dropWhile isPySpace).reverse.dropWhile isPySpace).reverse

/-- `content.split('\n')` lifted to `String`. -/
def pySplitLines (s : String) : List String :=
  (splitCh '\n' s.data).map (fun l => ⟨l⟩)

/-- `sep.join(lines)` lifted to `String`, for a one-character separator. -/
def joinLines (sep : Char) (ls : List String) : String :=
  ⟨joinCh sep (ls.map String.data)⟩

/-- `s.strip()` lifted to `String`. -/
def pyStrip (s : String) : String :=
  ⟨stripChars s.data⟩

/-- Contiguous-sublist test: `needle` occurs starting at some position. -/
def listInfix (needle : List Char) : List Char → Bool
  | [] => needle.isEmpty
  | c :: cs => needle.isPrefixOf (c :: cs) || listInfix needle cs

/-- Python's `needle in s` substring containment. -/
def containsSub (needle s : String) : Bool :=
  listInfix needle.data s.data

/-- The `NEPALI_TO_ENGLISH` character mapping: the ten Devanagari digits
U+0966–U+096F map to `'0'`–`'9'`, everything else is unchanged.  The source
performs ten successive single-character `str.replace` calls; that is
equivalent to this character-wise map because every pattern is a single
Devanagari digit while every replacement is an ASCII digit, so no
replacement ever produces a character that a later replacement consumes. -/
def nepaliCharToEnglish (c : Char) : Char :=
  if 0x966 ≤ c.toNat && c.toNat ≤ 0x96F then Char.ofNat (c.toNat - 0x966 + 48) else c

/-- `nepali_to_english_num`: convert Nepali numerals to English digits. -/
def nepali_to_english_num (text : String) : String :=
  ⟨text.data.map nepaliCharToEnglish⟩

/-- `extract_number`: `re.search(r'[०-९0-9]+', text)` returns the
leftmost maximal run of digit characters; the result is normalized, or `""`
when no digit occurs.  Leftmost-maximal search for a single positive
character class is exactly drop-to-first-digit followed by take-while. -/
def extract_number (text : String) : String :=
  match text.data.dropWhile (fun c => !isEitherDigit c) with
  | [] => ""
  | c :: rest => nepali_to_english_num ⟨(c :: rest).takeWhile isEitherDigit⟩

/-- Anchored match (`re.match`) of a structural marker pattern
`kw[\s-]*[०-९0-9]+`: the line must start with the literal keyword,
then any run of whitespace/hyphen characters, then at least one digit of
either script.  The regex's greedy `[\s-]*` with backtracking is equivalent
to dropping the maximal whitespace/hyphen run because digits are never
whitespace/hyphen characters. -/
def kwMatch (kw : String) (l : String) : Bool :=
  kw.data.isPrefixOf l.data &&
    (match (l.data.drop kw.data.length).dropWhile isWsHyphen with
     | c :: _ => isEitherDigit c
     | [] => false)

/-- `part_pattern` = `भाग[\s-]*[०-९0-9]+`, used via `.match`. -/
def part_pattern (l : String) : Bool := kwMatch "भाग" l

/-- `chapter_pattern` = `परिच्छेद[\s-]*[०-९0-9]+`, used via `.match`. -/
def chapter_pattern (l : String) : Bool := kwMatch "परिच्छेद" l

/-- `section_pattern` = `दफा[\s-]*[०-९0-9]+`, used via `.match`. -/
def section_pattern (l : String) : Bool := kwMatch "दफा" l

/-- The letter alternative `[क-ज्ञa-z]` of the clause marker group.  As a
regex character class this is the range क–ज (U+0915–U+091C) together with
the literal characters ्(U+094D) and ञ (U+091E) — the class text `क-ज्ञ`
decomposes into the range `क-ज` plus the two code points of `ज्ञ`'s trailing
characters — plus `a`–`z`. -/
def isEnumLetter (c : Char) : Bool :=
  (0x915 ≤ c.toNat && c.toNat ≤ 0x91C) || c.toNat = 0x94D || c.toNat = 0x91E ||
  (97 ≤ c.toNat && c.toNat ≤ 122)

/-- The optional trailer `[\)）]?\s*[:।\.]?\s*` of the clause pattern,
consumed greedily after the captured group: every element is optional, so
maximal munch is exact. -/
def clauseTail (r : List Char) : List Char :=
  let r4 := match r with
    | c :: t => if c = ')' || c = '）' then t else r
    | [] => r
  let r5 := r4.dropWhile isPySpace
  let r6 := match r5 with
    | c :: t => if c = ':' || c = '।' || c = '.' then t else r5
    | [] => r5
  r6.dropWhile isPySpace

/-- Anchored match of
`clause_pattern` = `^\s*[\(（]?([०-९0-9]+|[क-ज्ञa-z])[\)）]?\s*[:।\.]?\s*`.
Returns the captured group and the remainder of the line after the whole
match (which is exactly what `clause_pattern.sub('', line)` leaves, since
`^` restricts `sub` to a single replacement at the start).  Greedy
maximal-munch scanning is exact: every element after the group is optional,
the group's digit alternative is a maximal digit run, and no element can
consume a character admissible by the preceding one. -/
def clauseMatch (l : String) : Option (String × String) :=
  let s1 := l.data.dropWhile isPySpace
  let s2 := match s1 with
    | c :: t => if c = '(' || c = '（' then t else s1
    | [] => s1
  match s2 with
  | [] => none
  | c :: t =>
    if isEitherDigit c then
      some (⟨s2.takeWhile isEitherDigit⟩, ⟨clauseTail (s2.dropWhile isEitherDigit)⟩)
    else if isEnumLetter c then
      some (⟨[c]⟩, ⟨clauseTail t⟩)
    else none

/-- Schema `Clause` (fields the segmenter populates). -/
structure Clause where
  clause_id : String
  content : String
deriving Repr, DecidableEq

/-- Schema `Section`.  `sub_sections` and `page_number` are omitted: the
segmenter never populates them (`sub_sections` is always the empty list). -/
structure Section where
  section_number : String
  title : String
  content : String
  clauses : List Clause
deriving Repr, DecidableEq

/-- Schema `Chapter`. -/
structure Chapter where
  chapter_number : String
  title : String
  sections : List Section
deriving Repr, DecidableEq

/-- Schema `Part`. -/
structure Part where
  part_number : String
  title : String
  chapters : List Chapter
deriving Repr, DecidableEq

/-- Schema `Act` (fields the segmenter computes; `source_url`, `metadata`,
`publication_date` and `created_at` are pass-through/constant and omitted). -/
structure Act where
  title : String
  act_year : Option String
  parts : List Part
  chapters : List Chapter
deriving Repr, DecidableEq

/-- The loop body of `detect_clauses`: fold over the content lines keeping
the currently open clause and the finished ones. -/
def detectGo : List String → Option Clause → List Clause → List Clause
  | [], cur, acc => acc ++ cur.toList
  | l :: rest, cur, acc =>
    match clauseMatch l with
    | some (g, after) =>
      detectGo rest (some { clause_id := nepali_to_english_num g, content := pyStrip after })
        (acc ++ cur.toList)
    | none =>
      match cur with
      | some c => detectGo rest (some { c with content := c.content ++ " " ++ pyStrip l }) acc
      | none => detectGo rest none acc

/-- `detect_clauses`: extract clauses from section content. -/
def detect_clauses (content : String) : List Clause :=
  detectGo (pySplitLines content) none []

/-- `_get_title_after`: the line following a structural marker, unless it is
itself a Part/Chapter/Section marker line or there is no following line. -/
def get_title_after (lines : List String) (i : Nat) : String :=
  match lines[i+1]? with
  | some next =>
    if part_pattern next || chapter_pattern next || section_pattern next then "" else next
  | none => ""

/-- Finalize a buffered section: join the buffer with `sep`, run the clause
segmenter, and install the clauses when any were found (the `if clauses:`
guard of the source; a freshly created section always has an empty clause
list, so the guard only matters for keeping the default empty list). -/
def finalizeSectionWith (sep : Char) (s : Section) (buf : List String) : Section :=
  let content := joinLines sep buf
  let cl := detect_clauses content
  { s with content := content, clauses := if cl.isEmpty then s.clauses else cl }

/-- `_flush_section`: append the completed section to the open chapter;
with no open chapter the section is discarded. -/
def flush_section (sec : Option Section) (ch : Option Chapter) (buf : List String) :
    Option Chapter :=
  match sec, ch with
  | some s, some c => some { c with sections := c.sections ++ [finalizeSectionWith '\n' s buf] }
  | _, _ => ch

/-- `_flush_chapter`: append the completed chapter to the open part, or to
the Act's direct chapter list when no part is open. -/
def flush_chapter (ch : Option Chapter) (part : Option Part) (actChapters : List Chapter) :
    Option Part × List Chapter :=
  match ch with
  | none => (part, actChapters)
  | some c =>
    match part with
    | some p => (some { p with chapters := p.chapters ++ [c] }, actChapters)
    | none => (none, actChapters ++ [c])

/-- `_flush_part`: append the completed part to the Act. -/
def flush_part (part : Option Part) (actParts : List Part) : List Part :=
  match part with
  | some p => actParts ++ [p]
  | none => actParts

/-- The strict pass's mutable state: the Act's accumulated parts and direct
chapters, the open part/chapter/section and the content buffer. -/
structure StrictState where
  actParts : List Part
  actChapters : List Chapter
  curPart : Option Part
  curChapter : Option Chapter
  curSection : Option Section
  buffer : List String
deriving Repr, DecidableEq

/-- One iteration of the strict pass's loop body on line `i`. -/
def strictStep (lines : List String) (i : Nat) (line : String) (st : StrictState) :
    StrictState :=
  if part_pattern line then
    let ch1 := flush_section st.curSection st.curChapter st.buffer
    let pc := flush_chapter ch1 st.curPart st.actChapters
    { actParts := flush_part pc.1 st.actParts, actChapters := pc.2,
      curPart := some { part_number := extract_number line,
                        title := get_title_after lines i, chapters := [] },
      curChapter := none, curSection := none, buffer := [] }
  else if chapter_pattern line then
    let ch1 := flush_section st.curSection st.curChapter st.buffer
    let pc := flush_chapter ch1 st.curPart st.actChapters
    { actParts := st.actParts, actChapters := pc.2, curPart := pc.1,
      curChapter := some { chapter_number := extract_number line,
                           title := get_title_after lines i, sections := [] },
      curSection := none, buffer := [] }
  else if section_pattern line then
    { st with
      curChapter := flush_section st.curSection st.curChapter st.buffer,
      curSection := some { section_number := extract_number line,
                           title := get_title_after lines i, content := "", clauses := [] },
      buffer := [] }
  else if st.curSection.isSome then { st with buffer := st.buffer ++ [line] }
  else st

/-- The strict pass's loop: structural recursion over the remaining suffix,
carrying the absolute index `i` for the title look-ahead. -/
def strictGo (lines : List String) : Nat → List String → StrictState → StrictState
  | _, [], st => st
  | i, l :: rest, st => strictGo lines (i+1) rest (strictStep lines i l st)

/-- Initial state of either pass. -/
def initState : StrictState := ⟨[], [], none, none, none, []⟩

/-- The terminal finalize cascade of the strict pass. -/
def strictFinish (st : StrictState) : List Part × List Chapter :=
  let ch1 := flush_section st.curSection st.curChapter st.buffer
  let pc := flush_chapter ch1 st.curPart st.actChapters
  (flush_part pc.1 st.actParts, pc.2)

/-- The whole strict pass: parts and direct chapters it contributes. -/
def strictRun (lines : List String) : List Part × List Chapter :=
  strictFinish (strictGo lines 0 lines initState)

/-- The fallback pass's digit test
`any(c.isdigit() or '०' <= c <= '९' for c in line)`. -/
def fbHasDigit (l : String) : Bool :=
  l.data.any (fun c => pyIsDigit c || (0x966 ≤ c.toNat && c.toNat ≤ 0x96F))

/-- Fallback Part detection: `'भाग' in line` plus some digit character. -/
def fb_part_line (l : String) : Bool := containsSub "भाग" l && fbHasDigit l

/-- Fallback Chapter detection: `'परिच्छेद' in line` plus some digit. -/
def fb_chapter_line (l : String) : Bool := containsSub "परिच्छेद" l && fbHasDigit l

/-- Fallback Section detection: `'दफा' in line or 'धारा' in line` plus
some digit character. -/
def fb_section_line (l : String) : Bool :=
  (containsSub "दफा" l || containsSub "धारा" l) && fbHasDigit l

/-- The default chapter the fallback pass synthesizes for an orphan section. -/
def defaultChapter : Chapter :=
  { chapter_number := "1", title := "सामान्य (General)", sections := [] }

/-- The section flush inlined in the fallback's Part and Chapter branches:
only runs when the buffer is non-empty, and silently discards the section
when no chapter is open. -/
def fbFlushSecPlain (sec : Option Section) (ch : Option Chapter) (buf : List String) :
    Option Chapter :=
  match sec with
  | some s =>
    if buf.isEmpty then ch
    else
      match ch with
      | some c => some { c with sections := c.sections ++ [finalizeSectionWith ' ' s buf] }
      | none => ch
  | none => ch

/-- The section flush inlined in the fallback's Section branch and terminal
flush: only runs when the buffer is non-empty, and synthesizes the default
chapter when none is open. -/
def fbFlushSecSynth (sec : Option Section) (ch : Option Chapter) (buf : List String) :
    Option Chapter :=
  match sec with
  | some s =>
    if buf.isEmpty then ch
    else
      let c := ch.getD defaultChapter
      some { c with sections := c.sections ++ [finalizeSectionWith ' ' s buf] }
  | none => ch

/-- `if current_chapter and current_part: current_part.chapters.append(...)`
of the fallback's Part and Chapter branches. -/
def fbAttach (ch : Option Chapter) (part : Option Part) : Option Part :=
  match ch, part with
  | some c, some p => some { p with chapters := p.chapters ++ [c] }
  | _, _ => part

/-- The fallback pass's mutable state (the Act's direct chapter list is only
touched by the terminal flush, so it is not part of the loop state). -/
structure FBState where
  actParts : List Part
  curPart : Option Part
  curChapter : Option Chapter
  curSection : Option Section
  buffer : List String
deriving Repr, DecidableEq

/-- One iteration of the fallback pass's loop body. -/
def fbStep (st : FBState) (line : String) : FBState :=
  if fb_part_line line then
    let ch1 := fbFlushSecPlain st.curSection st.curChapter st.buffer
    let p1 := fbAttach ch1 st.curPart
    let actP1 := flush_part p1 st.actParts
    let num := extract_number line
    { actParts := actP1,
      curPart := some { part_number := if num = "" then toString (actP1.length + 1) else num,
                        title := line, chapters := [] },
      curChapter := none, curSection := none, buffer := [] }
  else if fb_chapter_line line then
    let ch1 := fbFlushSecPlain st.curSection st.curChapter st.buffer
    let p1 := fbAttach ch1 st.curPart
    let num := extract_number line
    let posNum := match p1 with
      | some p => toString (p.chapters.length + 1)
      | none => "1"
    { st with
      curPart := p1,
      curChapter := some { chapter_number := if num = "" then posNum else num,
                           title := line, sections := [] },
      curSection := none, buffer := [] }
  else if fb_section_line line then
    let ch1 := fbFlushSecSynth st.curSection st.curChapter st.buffer
    let num := extract_number line
    { st with
      curChapter := ch1,
      curSection := some { section_number := if num = "" then "1" else num,
                           title := if line.length < 100 then line else "",
                           content := "", clauses := [] },
      buffer := [] }
  else if st.curSection.isSome then { st with buffer := st.buffer ++ [line] }
  else st

/-- The fallback pass's terminal flush. -/
def fbFinish (st : FBState) : List Part × List Chapter :=
  let ch1 := fbFlushSecSynth st.curSection st.curChapter st.buffer
  match ch1 with
  | some c =>
    match st.curPart with
    | some p => (st.actParts ++ [{ p with chapters := p.chapters ++ [c] }], [])
    | none => (st.actParts, [c])
  | none =>
    match st.curPart with
    | some p => (st.actParts ++ [p], [])
    | none => (st.actParts, [])

/-- The whole fallback pass. -/
def fbRun (lines : List String) : List Part × List Chapter :=
  fbFinish (lines.foldl fbStep ⟨[], none, none, none, []⟩)

/-- `_find_title`'s assembly of the title once an `'ऐन'` line is found at
index `i`: conditionally prepend the predecessor and append the successor,
join with spaces and strip. -/
def buildTitle (lines : List String) (i : Nat) (line : String) : String :=
  let tp :=
    if i = 0 then [line]
    else if section_pattern (lines.getD (i-1) "") then [line]
    else
      let prev := lines.getD (i-1) ""
      if containsSub "www." prev || containsSub "http" prev || decide (prev.length < 5) then
        [line]
      else [prev, line]
  let tp :=
    if i + 1 < lines.length then
      if section_pattern (lines.getD (i+1) "") then tp
      else
        let next := lines.getD (i+1) ""
        if !(containsSub "www." next || containsSub "http" next) && decide (next.length > 3) then
          if !(chapter_pattern next) && !(part_pattern next) then tp ++ [next] else tp
        else tp
    else tp
  pyStrip (joinLines ' ' tp)

/-- `_find_title`'s primary scan over the first 50 lines. -/
def findTitleGo (lines : List String) : Nat → List String → Option String
  | _, [] => none
  | i, l :: rest =>
    if containsSub "ऐन" l then some (buildTitle lines i l)
    else findTitleGo lines (i+1) rest

/-- Python `line.isdigit()` on a whole string: non-empty and all digits. -/
def pyStrIsDigit (l : String) : Bool :=
  !l.data.isEmpty && l.data.all pyIsDigit

/-- `_find_title`'s fallback scan over the first 20 lines. -/
def titleFallbackScan : List String → Option String
  | [] => none
  | l :: rest =>
    if containsSub "www." l || containsSub "http" l || decide (l.length < 5) then
      titleFallbackScan rest
    else if pyStrIsDigit l || (decide (l.length < 4) && l.data.any pyIsDigit) then
      titleFallbackScan rest
    else some l

/-- `_find_title`: primary scan, then fallback scan, then `"Unknown Act"`. -/
def find_title (lines : List String) : String :=
  match findTitleGo lines 0 (lines.take 50) with
  | some t => t
  | none =>
    match titleFallbackScan (lines.take 20) with
    | some t => t
    | none => "Unknown Act"

/-- One attempt of `re.search(r'[०-९]{4}|[12][09]\d{2}', line)` at a fixed
position: the Devanagari alternative is tried first, as in the regex. -/
def yearAt : List Char → Option (List Char)
  | a :: b :: c :: d :: _ =>
    if isDevDigit a && isDevDigit b && isDevDigit c && isDevDigit d then some [a, b, c, d]
    else if (a = '1' || a = '2') && (b = '0' || b = '9') && pyIsDigitNd c && pyIsDigitNd d then
      some [a, b, c, d]
    else none
  | _ => none

/-- Leftmost search for the year pattern: try each position left to right. -/
def yearScan : List Char → Option (List Char)
  | [] => none
  | c :: cs =>
    match yearAt (c :: cs) with
    | some m => some m
    | none => yearScan cs

/-- The inner loop of `_extract_year` over a list of lines. -/
def yearFromLines : List String → Option String
  | [] => none
  | l :: rest =>
    match yearScan l.data with
    | some m => some (nepali_to_english_num ⟨m⟩)
    | none => yearFromLines rest

/-- `_extract_year`: scan the first 5 lines for the year pattern. -/
def extract_year (lines : List String) : Option String :=
  yearFromLines (lines.take 5)

/-- `parse`: the strict pass, then — exactly when it produced zero parts and
zero direct chapters — the fallback pass over the same lines.  Total by
construction: every input line list yields an `Act`. -/
def parse (lines : List String) : Act :=
  let s := strictRun lines
  let r := if s.1.isEmpty && s.2.isEmpty then fbRun lines else s
  { title := find_title lines, act_year := extract_year lines,
    parts := r.1, chapters := r.2 }

/-- The Act the strict pass alone would produce (the value of `act` at the
fallback trigger check). -/
def strictAct (lines : List String) : Act :=
  { title := find_title lines, act_year := extract_year lines,
    parts := (strictRun lines).1, chapters := (strictRun lines).2 }

/-- All sections of an Act, in tree order: sections of chapters under parts,
then sections of the Act's direct chapters. -/
def actSections (a : Act) : List Section :=
  (a.parts.flatMap fun p => p.chapters.flatMap fun c => c.sections) ++
    (a.chapters.flatMap fun c => c.sections)

/-! ### Concrete inputs used by the claims -/

/-- The input line sequence of Scenario A. -/
def scenarioALines : List String :=
  ["भाग १", "भाग शीर्षक", "परिच्छेद १", "अध्याय शीर्षक", "दफा १", "खण्ड शीर्षक",
   "(1) पहिलो पाठ", "(2) दोस्रो पाठ", "दफा २", "दोस्रो दफा content"]

/-- First section Scenario A actually produces: the title line
`खण्ड शीर्षक` itself matches the clause pattern (its first letter ख lies in
the enumeration range क–ज), so three clauses come out, not two. -/
def sectionA1 : Section :=
  { section_number := "1", title := "खण्ड शीर्षक",
    content := "खण्ड शीर्षक\n(1) पहिलो पाठ\n(2) दोस्रो पाठ",
    clauses := [{ clause_id := "ख", content := "ण्ड शीर्षक" },
                { clause_id := "1", content := "पहिलो पाठ" },
                { clause_id := "2", content := "दोस्रो पाठ" }] }

/-- Second section Scenario A produces. -/
def sectionA2 : Section :=
  { section_number := "2", title := "दोस्रो दफा content",
    content := "दोस्रो दफा content", clauses := [] }

/-- The full Act Scenario A actually produces. -/
def expectedActA : Act :=
  { title := "भाग १", act_year := none,
    parts := [{ part_number := "1", title := "भाग शीर्षक",
                chapters := [{ chapter_number := "1", title := "अध्याय शीर्षक",
                               sections := [sectionA1, sectionA2] }] }],
    chapters := [] }

/-- Fallback-pass input in which a Section-opening line's section is lost:
the strict pass matches nothing (no line starts with a keyword), and in the
fallback pass the section opened by line 1 is flushed with an empty buffer
at line 2 and discarded. -/
def lostSectionLines : List String := ["यो दफा १", "यो दफा २", "पाठ"]

/-- Fallback-pass input whose third Section-opening line `क दफा ²`
contains a digit character only in the sense of Python `str.isdigit`
(`²`, U+00B2), which the numeral-extraction class `[०-९0-9]` does not
match — so `extract_number` yields `""` on it. -/
def superscriptLines : List String :=
  ["क दफा १", "पाठ", "क दफा २", "पाठ", "क दफा ²", "पाठ"]

/-! ### C1 — Scenario A -/

/-- C1 counterexample: on the Scenario A input, the sections' clause-id
lists are `[["ख","1","2"], []]`, not `[["1","2"], []]` as the claim's
"exactly two Clauses with clause_id 1 and 2" requires: the Section title
line `खण्ड शीर्षक` is itself picked up as a clause by the letter
alternative of the clause pattern. -/
theorem c1_counterexample :
    (actSections (parse scenarioALines)).map (fun s => s.clauses.map Clause.clause_id) ≠
      [["1", "2"], []] := by
  decide

/-- C1 amended: Scenario A yields one Part (number "1") containing one
Chapter (number "1") containing two Sections; the first Section has THREE
clauses, with ids "ख", "1", "2" and contents "ण्ड शीर्षक", "पहिलो पाठ",
"दोस्रो पाठ" (the stored section title `खण्ड शीर्षक` is re-read as content
and its leading letter ख matches the clause pattern's enumeration-letter
alternative); the second Section has zero Clauses and content
"दोस्रो दफा content". -/
theorem c1_amended_scenarioA : parse scenarioALines = expectedActA := by
  decide

/-! ### C6 — totality and the empty input -/

/-- C6: `parse` is a total function of the input line sequence — in this
embedding every input yields an `Act` value by construction, which is the
shallow counterpart of "never raises" — and the empty sequence yields the
placeholder title `"Unknown Act"`, no year, zero Parts and zero Chapters. -/
theorem c6_total_and_empty :
    parse [] = { title := "Unknown Act", act_year := none, parts := [], chapters := [] } ∧
    ∀ lines : List String, ∃ a : Act, parse lines = a :=
  ⟨by decide, fun lines => ⟨parse lines, rfl⟩⟩

/-! ### C5 — fallback positional numbering -/

/-- C5 counterexample: in `superscriptLines` the fallback pass creates three
sections; the third is opened by `क दफा ²`, a Section-opening marker line
(the superscript `²` counts as a digit for the marker test) on which numeral
extraction yields nothing — yet its number is the constant `"1"`, not the
positional "count of siblings created so far plus one" (= "3": two sibling
sections already exist in the open chapter). -/
theorem c5_counterexample :
    fb_section_line "क दफा ²" = true ∧ extract_number "क दफा ²" = "" ∧
      (actSections (parse superscriptLines)).map Section.section_number = ["1", "2", "1"] := by
  decide

/-- C5 amended: when numeral extraction yields nothing on a fallback marker
line, a Part's number is positional (count of parts emitted so far plus
one); a Chapter's number is positional within the open Part, and `"1"` when
no Part is open (which coincides with the positional value, since the Act's
direct chapter list is only filled by the terminal flush); but a Section's
number is the constant `"1"` regardless of how many sibling sections
exist. -/
theorem c5_amended_numbering (st : FBState) (line : String) :
    (fb_part_line line = true → extract_number line = "" →
      (fbStep st line).curPart =
        some { part_number := toString ((fbStep st line).actParts.length + 1),
               title := line, chapters := [] }) ∧
    (fb_part_line line = false → fb_chapter_line line = true → extract_number line = "" →
      ∀ p : Part, (fbStep st line).curPart = some p →
        (fbStep st line).curChapter =
          some { chapter_number := toString (p.chapters.length + 1),
                 title := line, sections := [] }) ∧
    (fb_part_line line = false → fb_chapter_line line = true → extract_number line = "" →
      (fbStep st line).curPart = none →
        (fbStep st line).curChapter =
          some { chapter_number := "1", title := line, sections := [] }) ∧
    (fb_part_line line = false → fb_chapter_line line = false →
      fb_section_line line = true → extract_number line = "" →
      (fbStep st line).curSection =
        some { section_number := "1", title := if line.length < 100 then line else "",
               content := "", clauses := [] }) := by
  refine ⟨fun hp hn => ?_, fun hp hc hn p hcp => ?_, fun hp hc hn hcp => ?_,
    fun hp hc hs hn => ?_⟩
  · simp only [fbStep, hp, if_true, hn, if_pos rfl]
  · simp only [fbStep, hp, Bool.false_eq_true, if_false, hc, if_true, hn, if_pos rfl] at hcp ⊢
    rw [hcp]
  · simp only [fbStep, hp, Bool.false_eq_true, if_false, hc, if_true, hn, if_pos rfl] at hcp ⊢
    rw [hcp]
  · simp only [fbStep, hp, hc, Bool.false_eq_true, if_false, hs, if_true, hn, if_pos rfl]

/-- C5 witness: the theorem applied at concrete states and marker lines
that carry only a superscript digit. -/
theorem c5_amended_numbering_witness :
    (fbStep ⟨[], none, none, none, []⟩ "भाग ²").curPart =
      some { part_number := "1", title := "भाग ²", chapters := [] } ∧
    (fbStep ⟨[], none, none,
        some { section_number := "7", title := "t", content := "", clauses := [] },
        ["x"]⟩ "क दफा ²").curSection =
      some { section_number := "1", title := "क दफा ²", content := "", clauses := [] } :=
  ⟨by
    have h := (c5_amended_numbering ⟨[], none, none, none, []⟩ "भाग ²").1
      (by decide) (by decide)
    simpa using h,
   by
    have h := (c5_amended_numbering
      ⟨[], none, none, some { section_number := "7", title := "t", content := "", clauses := [] },
        ["x"]⟩ "क दफा ²").2.2.2 (by decide) (by decide) (by decide) (by decide)
    simpa using h⟩

/-! ### C3 — fallback section retention -/

/-- C3 counterexample: in `lostSectionLines` the line `यो दफा १` is a
fallback Section-opening line, yet the Act `parse` returns contains only
the section numbered "2": the section opened by line 1 was flushed with an
empty content buffer at line 2 and discarded, so not every Section opened
by a Section-opening line is retained. -/
theorem c3_counterexample :
    fb_section_line "यो दफा १" = true ∧ strictRun lostSectionLines = ([], []) ∧
      actSections (parse lostSectionLines) =
        [{ section_number := "2", title := "यो दफा २", content := "पाठ", clauses := [] }] := by
  decide

/-- C3 amended: in the fallback pass a Section is flushed only when its
content buffer is non-empty; a Section whose buffer is empty at flush time
is discarded.  Whenever a non-empty flush occurs with no Chapter open — at
a later Section-opening line or at stream end — a default Chapter with
number "1" and title "सामान्य (General)" is synthesized to hold it, and at
stream end the finalize cascade attaches the synthesized (or open) Chapter
to the open Part if any, else directly to the Act, and then the open Part
to the Act. -/
theorem c3_amended_synthesis (st : FBState) (line : String) (s : Section) :
    (fb_part_line line = false → fb_chapter_line line = false →
      fb_section_line line = true → st.curSection = some s → st.curChapter = none →
      ((st.buffer ≠ [] →
        (fbStep st line).curChapter =
          some { chapter_number := "1", title := "सामान्य (General)",
                 sections := [finalizeSectionWith ' ' s st.buffer] }) ∧
       (st.buffer = [] → (fbStep st line).curChapter = none))) ∧
    (st.curSection = some s → st.curChapter = none → st.curPart = none → st.buffer ≠ [] →
      fbFinish st =
        (st.actParts,
         [{ chapter_number := "1", title := "सामान्य (General)",
            sections := [finalizeSectionWith ' ' s st.buffer] }])) ∧
    (∀ c : Chapter, ∀ p : Part, st.curSection = none → st.curChapter = some c →
      st.curPart = some p →
      fbFinish st = (st.actParts ++ [{ p with chapters := p.chapters ++ [c] }], [])) := by
  refine ⟨fun hp hc hs hsec hch => ⟨fun hb => ?_, fun hb => ?_⟩,
    fun hsec hch hcp hb => ?_, fun c p hsec hch hcp => ?_⟩
  · simp only [fbStep, hp, hc, Bool.false_eq_true, if_false, hs, if_true, fbFlushSecSynth,
      hsec, hch]
    rw [if_neg (by simpa using hb)]
    simp [defaultChapter, Option.getD]
  · simp only [fbStep, hp, hc, Bool.false_eq_true, if_false, hs, if_true, fbFlushSecSynth,
      hsec, hch, hb]
    simp
  · simp only [fbFinish, fbFlushSecSynth, hsec, hch, hcp]
    rw [if_neg (by simpa using hb)]
    simp [defaultChapter, Option.getD]
  · simp only [fbFinish, fbFlushSecSynth, hsec, hch, hcp]

/-- C3 witness: the theorem applied at a concrete state and line. -/
theorem c3_amended_synthesis_witness :
    (fbStep ⟨[], none, none,
        some { section_number := "1", title := "यो दफा १", content := "", clauses := [] },
        ["पाठ"]⟩ "यो दफा २").curChapter =
      some { chapter_number := "1", title := "सामान्य (General)",
             sections := [{ section_number := "1", title := "यो दफा १",
                            content := "पाठ", clauses := [] }] } := by
  have h := ((c3_amended_synthesis
    ⟨[], none, none,
      some { section_number := "1", title := "यो दफा १", content := "", clauses := [] },
      ["पाठ"]⟩ "यो दफा २"
    { section_number := "1", title := "यो दफा १", content := "", clauses := [] }).1
    (by decide) (by decide) (by decide) rfl rfl).1 (by decide)
  rw [h]
  decide

/-! ### C4 — the strict pass discards sections with no enclosing chapter -/

lemma flush_section_none (sec : Option Section) (buf : List String) :
    flush_section sec none buf = none := by
  cases sec <;> rfl

/-- Invariant of the strict loop when the input has no chapter-marker line:
no chapter is open and none exists anywhere in the accumulated state. -/
def NoChapters (st : StrictState) : Prop :=
  st.curChapter = none ∧ st.actChapters = [] ∧
    (∀ p ∈ st.actParts, p.chapters = []) ∧
    (∀ p : Part, st.curPart = some p → p.chapters = [])

lemma strictStep_noChapters {lines : List String} {i : Nat} {line : String} {st : StrictState}
    (h : chapter_pattern line = false) (hst : NoChapters st) :
    NoChapters (strictStep lines i line st) := by
  obtain ⟨h1, h2, h3, h4⟩ := hst
  have hflush : flush_section st.curSection st.curChapter st.buffer = none := by
    rw [h1]; exact flush_section_none _ _
  have hpart : ∀ p ∈ flush_part st.curPart st.actParts, p.chapters = [] := by
    intro p hp
    cases hcp : st.curPart with
    | none => rw [hcp] at hp; exact h3 p hp
    | some q =>
      rw [hcp] at hp
      simp only [flush_part, List.mem_append, List.mem_singleton] at hp
      rcases hp with hp | hp
      · exact h3 p hp
      · rw [hp]; exact h4 q hcp
  unfold strictStep
  by_cases hp : part_pattern line = true
  · rw [if_pos hp]
    refine ⟨rfl, ?_, ?_, ?_⟩
    · dsimp only
      rw [hflush]
      exact h2
    · dsimp only
      rw [hflush]
      exact hpart
    · intro p hp'
      dsimp only at hp'
      rw [← Option.some.inj hp']
  · rw [if_neg hp, if_neg (by rw [h]; exact Bool.false_ne_true)]
    by_cases hs : section_pattern line = true
    · rw [if_pos hs]
      exact ⟨hflush, h2, h3, h4⟩
    · rw [if_neg hs]
      by_cases hb : st.curSection.isSome = true
      · rw [if_pos hb]; exact ⟨h1, h2, h3, h4⟩
      · rw [if_neg hb]; exact ⟨h1, h2, h3, h4⟩

lemma strictGo_noChapters (lines : List String) :
    ∀ (suffix : List String) (i : Nat) (st : StrictState),
      (∀ l ∈ suffix, chapter_pattern l = false) → NoChapters st →
      NoChapters (strictGo lines i suffix st)
  | [], _, _, _, hst => hst
  | l :: rest, i, st, h, hst =>
    strictGo_noChapters lines rest (i + 1) (strictStep lines i l st)
      (fun x hx => h x (List.mem_cons_of_mem _ hx))
      (strictStep_noChapters (h l (List.mem_cons_self _ _)) hst)

lemma flatMap_sections_nil {parts : List Part} (h : ∀ p ∈ parts, p.chapters = []) :
    (parts.flatMap fun p => p.chapters.flatMap fun c => c.sections) = [] := by
  induction parts with
  | nil => rfl
  | cons p ps ih =>
    rw [List.flatMap_cons, h p (List.mem_cons_self _ _)]
    exact ih fun q hq => h q (List.mem_cons_of_mem _ hq)

/-- C4: `_flush_section` with no open chapter discards the section
outright, and consequently an input stream containing no chapter-marker
line yields a strict-pass Act with no sections at all — every section
opened there is finalized without a chapter context and dropped.  The
condition is never surfaced as an error: in this embedding the strict pass
is a total function into `Act` (compare `c6_total_and_empty`). -/
theorem c4_strict_discards_orphan_sections :
    (∀ (s : Section) (buf : List String), flush_section (some s) none buf = none) ∧
    (∀ lines : List String, (∀ l ∈ lines, chapter_pattern l = false) →
      actSections (strictAct lines) = []) := by
  constructor
  · intro s buf; exact flush_section_none (some s) buf
  · intro lines h
    have hinv : NoChapters (strictGo lines 0 lines initState) :=
      strictGo_noChapters lines lines 0 initState h
        ⟨rfl, rfl, fun p hp => absurd hp (List.not_mem_nil p),
         fun p hp => Option.noConfusion hp⟩
    obtain ⟨h1, h2, h3, h4⟩ := hinv
    have hflush : flush_section (strictGo lines 0 lines initState).curSection
        (strictGo lines 0 lines initState).curChapter
        (strictGo lines 0 lines initState).buffer = none := by
      rw [h1]; exact flush_section_none _ _
    have hrun : strictRun lines =
        (flush_part (strictGo lines 0 lines initState).curPart
          (strictGo lines 0 lines initState).actParts,
         (strictGo lines 0 lines initState).actChapters) := by
      unfold strictRun strictFinish
      rw [hflush]
      rfl
    have hpart : ∀ p ∈ flush_part (strictGo lines 0 lines initState).curPart
        (strictGo lines 0 lines initState).actParts, p.chapters = [] := by
      intro p hp
      cases hcp : (strictGo lines 0 lines initState).curPart with
      | none => rw [hcp] at hp; exact h3 p hp
      | some q =>
        rw [hcp] at hp
        simp only [flush_part, List.mem_append, List.mem_singleton] at hp
        rcases hp with hp | hp
        · exact h3 p hp
        · rw [hp]; exact h4 q hcp
    unfold strictAct actSections
    rw [hrun]
    dsimp only
    rw [flatMap_sections_nil hpart, h2]
    rfl

/-- C4 witness: a concrete input with a section marker but no chapter
marker really produces an Act with no sections. -/
theorem c4_witness : actSections (strictAct ["दफा १", "पाठ"]) = [] :=
  c4_strict_discards_orphan_sections.2 ["दफा १", "पाठ"] (by decide)

/-! ### C7 — numeral normalization -/

lemma nepaliCharToEnglish_of_ascii {c : Char} (h : c.isDigit = true) :
    nepaliCharToEnglish c = c := by
  simp only [Char.isDigit, Bool.and_eq_true, decide_eq_true_eq, ge_iff_le] at h
  unfold nepaliCharToEnglish
  rw [if_neg]
  simp only [Bool.and_eq_true, decide_eq_true_eq, not_and]
  intro h1
  have h2 : c.toNat ≤ 57 := h.2
  omega

lemma nepaliCharToEnglish_of_dev {c : Char} (h : isDevDigit c = true) :
    nepaliCharToEnglish c = Char.ofNat (c.toNat - 0x966 + 48) := by
  simp only [isDevDigit, Bool.and_eq_true, decide_eq_true_eq] at h
  unfold nepaliCharToEnglish
  rw [if_pos]
  simp only [Bool.and_eq_true, decide_eq_true_eq]
  exact h

/-- C7: normalizing a string of ASCII digits returns it unchanged, and
normalizing a string of n Devanagari digits returns a string of the same
length n in which each digit is independently mapped to the ASCII digit of
its decimal value (code point 48 plus the offset inside the Devanagari
digit block). -/
theorem c7_numeral_normalization (s : String) :
    ((∀ c ∈ s.data, c.isDigit = true) → nepali_to_english_num s = s) ∧
    ((∀ c ∈ s.data, isDevDigit c = true) →
      (nepali_to_english_num s).length = s.length ∧
      (nepali_to_english_num s).data =
        s.data.map (fun c => Char.ofNat (c.toNat - 0x966 + 48))) := by
  constructor
  · intro h
    show String.mk (s.data.map nepaliCharToEnglish) = s
    have hmap : s.data.map nepaliCharToEnglish = s.data.map id :=
      List.map_congr_left fun c hc => nepaliCharToEnglish_of_ascii (h c hc)
    rw [hmap, List.map_id]
  · intro h
    constructor
    · show (s.data.map nepaliCharToEnglish).length = s.length
      rw [List.length_map]
      rfl
    · show s.data.map nepaliCharToEnglish = _
      exact List.map_congr_left fun c hc => nepaliCharToEnglish_of_dev (h c hc)

/-- C7 witness: the theorem applied to the ASCII string "123" and the
Devanagari string "१२३". -/
theorem c7_numeral_normalization_witness :
    nepali_to_english_num "123" = "123" ∧ (nepali_to_english_num "१२३").length = 3 :=
  ⟨(c7_numeral_normalization "123").1 (by decide), by
    have h := ((c7_numeral_normalization "१२३").2 (by decide)).1
    rw [h]; decide⟩

/-! ### C9 — strict marker classification -/

/-- The tagged result of the strict pass's per-line dispatch (the check
order of the `if`-chain in `parse`: Part, then Chapter, then Section). -/
inductive MarkerKind where
  | part
  | chapter
  | sec
deriving Repr, DecidableEq

/-- The strict pass's per-line classification, in the source's check
order: `part_pattern`, then `chapter_pattern`, then `section_pattern`;
the first anchored match wins. -/
def strictClassify (l : String) : Option MarkerKind :=
  if part_pattern l then some MarkerKind.part
  else if chapter_pattern l then some MarkerKind.chapter
  else if section_pattern l then some MarkerKind.sec
  else none

/-- The spec-side description of a strict marker line: the literal keyword
anchored at the line start, then optional whitespace/hyphen characters,
then at least one digit character of either script. -/
def StrictMarkerForm (kw l : String) : Prop :=
  ∃ ws d rest, l.data = kw.data ++ ws ++ d :: rest ∧
    (∀ c ∈ ws, isWsHyphen c = true) ∧ isEitherDigit d = true

lemma digit_not_wsHyphen {c : Char} (h : isEitherDigit c = true) : isWsHyphen c = false := by
  cases hws : isWsHyphen c
  · rfl
  · exfalso
    simp only [isEitherDigit, Bool.or_eq_true, Bool.and_eq_true, decide_eq_true_eq] at h
    simp only [isWsHyphen, isPySpace, Bool.or_eq_true, Bool.and_eq_true,
      decide_eq_true_eq] at hws
    omega

lemma kwMatch_iff (kw l : String) : kwMatch kw l = true ↔ StrictMarkerForm kw l := by
  constructor
  · intro h
    simp only [kwMatch, Bool.and_eq_true] at h
    obtain ⟨hpre, hrest⟩ := h
    obtain ⟨t, ht⟩ := List.isPrefixOf_iff_prefix.mp hpre
    rcases hu : (l.data.drop kw.data.length).dropWhile isWsHyphen with _ | ⟨d, rest⟩
    · rw [hu] at hrest; exact absurd hrest Bool.false_ne_true
    · rw [hu] at hrest
      have hdrop : l.data.drop kw.data.length = t := by
        rw [← ht]; exact List.drop_left kw.data t
      refine ⟨t.takeWhile isWsHyphen, d, rest, ?_, ?_, hrest⟩
      · rw [← ht]
        have hsplit : t.takeWhile isWsHyphen ++ d :: rest = t := by
          conv_rhs => rw [← List.takeWhile_append_dropWhile (p := isWsHyphen) (l := t)]
          rw [← hdrop, hu]
        rw [List.append_assoc, hsplit]
      · intro c hc; exact List.mem_takeWhile_imp hc
  · rintro ⟨ws, d, rest, hdecomp, hws, hd⟩
    simp only [kwMatch, Bool.and_eq_true]
    constructor
    · exact List.isPrefixOf_iff_prefix.mpr ⟨ws ++ d :: rest, by rw [hdecomp, List.append_assoc]⟩
    · have hdrop : l.data.drop kw.data.length = ws ++ d :: rest := by
        rw [hdecomp, List.append_assoc]
        exact List.drop_left kw.data (ws ++ d :: rest)
      rw [hdrop]
      have hws' : (ws ++ d :: rest).dropWhile isWsHyphen = d :: rest := by
        rw [List.dropWhile_append]
        have h1 : ws.dropWhile isWsHyphen = [] := by
          rw [List.dropWhile_eq_nil_iff]
          exact fun c hc => hws c hc
        rw [h1]
        simp only [List.isEmpty_nil, if_true]
        rw [List.dropWhile_cons, digit_not_wsHyphen hd]
        simp
      rw [hws']
      exact hd

lemma strictClassify_part_iff (l : String) :
    strictClassify l = some MarkerKind.part ↔ part_pattern l = true := by
  unfold strictClassify
  by_cases h1 : part_pattern l = true
  · simp [h1]
  · by_cases h2 : chapter_pattern l = true
    · simp [h1, h2]
    · by_cases h3 : section_pattern l = true
      · simp [h1, h2, h3]
      · simp [h1, h2, h3]

lemma strictClassify_chapter_iff (l : String) :
    strictClassify l = some MarkerKind.chapter ↔
      (¬part_pattern l = true ∧ chapter_pattern l = true) := by
  unfold strictClassify
  by_cases h1 : part_pattern l = true
  · simp [h1]
  · by_cases h2 : chapter_pattern l = true
    · simp [h1, h2]
    · by_cases h3 : section_pattern l = true
      · simp [h1, h2, h3]
      · simp [h1, h2, h3]

lemma strictClassify_sec_iff (l : String) :
    strictClassify l = some MarkerKind.sec ↔
      (¬part_pattern l = true ∧ ¬chapter_pattern l = true ∧ section_pattern l = true) := by
  unfold strictClassify
  by_cases h1 : part_pattern l = true
  · simp [h1]
  · by_cases h2 : chapter_pattern l = true
    · simp [h1, h2]
    · by_cases h3 : section_pattern l = true
      · simp [h1, h2, h3]
      · simp [h1, h2, h3]

/-- C9: in the strict pass a line opens a Part/Chapter/Section exactly when
it begins with the respective literal keyword followed by optional
whitespace/hyphen characters and at least one digit of either script; the
check order is Part, then Chapter, then Section, with the first match
winning.  In particular the line "दफा ५ मातहत" is classified as opening a
Section, with extracted number "5". -/
theorem c9_strict_classification :
    (∀ l : String, part_pattern l = true ↔ StrictMarkerForm "भाग" l) ∧
    (∀ l : String, chapter_pattern l = true ↔ StrictMarkerForm "परिच्छेद" l) ∧
    (∀ l : String, section_pattern l = true ↔ StrictMarkerForm "दफा" l) ∧
    (∀ l : String, strictClassify l = some MarkerKind.part ↔ StrictMarkerForm "भाग" l) ∧
    (∀ l : String, strictClassify l = some MarkerKind.chapter ↔
      ¬StrictMarkerForm "भाग" l ∧ StrictMarkerForm "परिच्छेद" l) ∧
    (∀ l : String, strictClassify l = some MarkerKind.sec ↔
      ¬StrictMarkerForm "भाग" l ∧ ¬StrictMarkerForm "परिच्छेद" l ∧
        StrictMarkerForm "दफा" l) ∧
    strictClassify "दफा ५ मातहत" = some MarkerKind.sec ∧
    extract_number "दफा ५ मातहत" = "5" := by
  have hp := fun l => kwMatch_iff "भाग" l
  have hc := fun l => kwMatch_iff "परिच्छेद" l
  have hs := fun l => kwMatch_iff "दफा" l
  refine ⟨hp, hc, hs, ?_, ?_, ?_, by decide, by decide⟩
  · intro l
    rw [strictClassify_part_iff]
    exact hp l
  · intro l
    rw [strictClassify_chapter_iff]
    exact and_congr (not_congr (hp l)) (hc l)
  · intro l
    rw [strictClassify_sec_iff]
    exact and_congr (not_congr (hp l)) (and_congr (not_congr (hc l)) (hs l))

/-! ### C8 — year extraction -/

/-- Modelled from the claim's words, for comparison with the code: a line
qualifies iff it contains a run of 4 Devanagari digits or a 4-digit ASCII
run beginning with "19" or "20". -/
def claimYearAt : List Char → Bool
  | a :: b :: c :: d :: _ =>
    (isDevDigit a && isDevDigit b && isDevDigit c && isDevDigit d) ||
    (((a = '1' && b = '9') || (a = '2' && b = '0')) &&
      (48 ≤ c.toNat && c.toNat ≤ 57) && (48 ≤ d.toNat && d.toNat ≤ 57))
  | _ => false

/-- Modelled from the claim's words: scan every position of the line. -/
def claimYearScan : List Char → Bool
  | [] => false
  | c :: cs => claimYearAt (c :: cs) || claimYearScan cs

/-- Modelled from the claim's words: the claim's year-line predicate. -/
def claimYearLine (l : String) : Bool := claimYearScan l.data

/-- C8 counterexample: on the input `["1066"]` the extractor returns
`some "1066"`, although "1066" contains neither a 4-digit Devanagari run
nor a 4-digit run beginning with "19" or "20" — the regex alternative
`[12][09]\d{2}` also accepts 10xx and 29xx. -/
theorem c8_counterexample :
    extract_year ["1066"] = some "1066" ∧ claimYearLine "1066" = false := by
  decide

/-- What the code's pattern `[०-९]{4}|[12][09]\d{2}` matches at
position `i` of a character list. -/
def YearPatternAt (cs : List Char) (i : Nat) : Prop :=
  ∃ a b c d rest, cs.drop i = a :: b :: c :: d :: rest ∧
    ((isDevDigit a = true ∧ isDevDigit b = true ∧ isDevDigit c = true ∧
        isDevDigit d = true) ∨
     ((a = '1' ∨ a = '2') ∧ (b = '0' ∨ b = '9') ∧ pyIsDigitNd c = true ∧
        pyIsDigitNd d = true))

lemma yearAt_isSome_iff (cs : List Char) :
    (yearAt cs).isSome = true ↔ YearPatternAt cs 0 := by
  unfold YearPatternAt
  rcases cs with _ | ⟨a, _ | ⟨b, _ | ⟨c, _ | ⟨d, rest⟩⟩⟩⟩ <;>
    simp only [yearAt, List.drop_zero, Option.isSome_none, Option.isSome_some]
  · simp
  · simp
  · simp
  · simp
  · by_cases h1 : (isDevDigit a && isDevDigit b && isDevDigit c && isDevDigit d) = true
    · rw [if_pos h1]
      simp only [Option.isSome_some, true_iff]
      simp only [Bool.and_eq_true] at h1
      exact ⟨a, b, c, d, rest, rfl, Or.inl ⟨h1.1.1.1, h1.1.1.2, h1.1.2, h1.2⟩⟩
    · rw [if_neg h1]
      by_cases h2 : ((a = '1' || a = '2') && (b = '0' || b = '9') &&
          pyIsDigitNd c && pyIsDigitNd d) = true
      · rw [if_pos h2]
        simp only [Option.isSome_some, true_iff]
        simp only [Bool.and_eq_true, Bool.or_eq_true, decide_eq_true_eq] at h2
        exact ⟨a, b, c, d, rest, rfl, Or.inr ⟨h2.1.1.1, h2.1.1.2, h2.1.2, h2.2⟩⟩
      · rw [if_neg h2]
        simp only [Option.isSome_none, Bool.false_eq_true, false_iff, not_exists]
        rintro a' b' c' d' rest' ⟨heq, hcase⟩
        injection heq with ha heq; injection heq with hb heq
        injection heq with hc heq; injection heq with hd _
        subst ha; subst hb; subst hc; subst hd
        rcases hcase with ⟨q1, q2, q3, q4⟩ | ⟨q1, q2, q3, q4⟩
        · exact h1 (by rw [q1, q2, q3, q4]; rfl)
        · apply h2
          simp only [Bool.and_eq_true, Bool.or_eq_true, decide_eq_true_eq]
          exact ⟨⟨⟨q1, q2⟩, q3⟩, q4⟩

lemma yearScan_isSome_iff (cs : List Char) :
    (yearScan cs).isSome = true ↔ ∃ i, YearPatternAt cs i := by
  induction cs with
  | nil =>
    simp only [yearScan, Option.isSome_none, Bool.false_eq_true, false_iff, not_exists]
    rintro i ⟨a, b, c, d, rest, heq, -⟩
    rw [List.drop_nil] at heq
    exact List.noConfusion heq
  | cons c0 cs ih =>
    unfold yearScan
    cases hat : yearAt (c0 :: cs) with
    | some m =>
      simp only [Option.isSome_some, true_iff]
      exact ⟨0, (yearAt_isSome_iff (c0 :: cs)).mp (by rw [hat]; rfl)⟩
    | none =>
      simp only
      rw [ih]
      constructor
      · rintro ⟨i, hI⟩
        exact ⟨i + 1, hI⟩
      · rintro ⟨i, hI⟩
        cases i with
        | zero =>
          exfalso
          have := (yearAt_isSome_iff (c0 :: cs)).mpr hI
          rw [hat] at this
          exact Bool.false_ne_true this
        | succ j => exact ⟨j, hI⟩

lemma yearFromLines_isSome_iff (ls : List String) :
    (yearFromLines ls).isSome = true ↔ ∃ l ∈ ls, (yearScan l.data).isSome = true := by
  induction ls with
  | nil => simp [yearFromLines]
  | cons l ls ih =>
    unfold yearFromLines
    cases hscan : yearScan l.data with
    | some m =>
      simp only [Option.isSome_some, true_iff]
      exact ⟨l, List.mem_cons_self _ _, by rw [hscan]; rfl⟩
    | none =>
      simp only
      rw [ih]
      constructor
      · rintro ⟨x, hx, hs⟩
        exact ⟨x, List.mem_cons_of_mem _ hx, hs⟩
      · rintro ⟨x, hx, hs⟩
        rcases List.mem_cons.mp hx with rfl | hx'
        · rw [hscan] at hs; exact absurd hs Bool.false_ne_true
        · exact ⟨x, hx', hs⟩

lemma yearFromLines_append_none {pre rest : List String}
    (h : ∀ l ∈ pre, yearScan l.data = none) :
    yearFromLines (pre ++ rest) = yearFromLines rest := by
  induction pre with
  | nil => rfl
  | cons l ls ih =>
    have h0 : yearScan l.data = none := h l (List.mem_cons_self _ _)
    rw [List.cons_append]
    show (match yearScan l.data with
      | some m => some (nepali_to_english_num ⟨m⟩)
      | none => yearFromLines (ls ++ rest)) = yearFromLines rest
    rw [h0]
    exact ih fun x hx => h x (List.mem_cons_of_mem _ hx)

/-- C8 amended: the extractor scans only the first 5 lines; it returns a
value iff some scanned line matches, at some position, a run of 4
Devanagari digits or a 4-character run whose first character is `1` or
`2`, whose second is `0` or `9`, and whose last two are decimal digits of
any script (so 10xx and 29xx years qualify, and the last two digits may be
Devanagari); the returned value is the leftmost match of the first
matching line, normalized to ASCII. -/
theorem c8_amended_year (lines : List String) :
    extract_year lines = extract_year (lines.take 5) ∧
    ((extract_year lines).isSome = true ↔
      ∃ l ∈ lines.take 5, ∃ i, YearPatternAt l.data i) ∧
    (∀ (pre : List String) (l : String) (post : List String) (m : List Char),
      lines.take 5 = pre ++ l :: post → (∀ l' ∈ pre, yearScan l'.data = none) →
      yearScan l.data = some m →
      extract_year lines = some (nepali_to_english_num ⟨m⟩)) := by
  refine ⟨?_, ?_, ?_⟩
  · unfold extract_year
    rw [List.take_take]
    norm_num
  · unfold extract_year
    rw [yearFromLines_isSome_iff]
    constructor
    · rintro ⟨l, hl, hs⟩
      exact ⟨l, hl, (yearScan_isSome_iff l.data).mp hs⟩
    · rintro ⟨l, hl, hi⟩
      exact ⟨l, hl, (yearScan_isSome_iff l.data).mpr hi⟩
  · intro pre l post m htake hpre hscan
    unfold extract_year
    rw [htake, yearFromLines_append_none hpre]
    unfold yearFromLines
    rw [hscan]

/-- C8 witness: the amended theorem applied to a concrete input whose
first line has no year match and whose second carries `२०७४`. -/
theorem c8_amended_year_witness :
    extract_year ["नमुना", "साल २०७४ हो"] = some "2074" := by
  have h := (c8_amended_year ["नमुना", "साल २०७४ हो"]).2.2 ["नमुना"] "साल २०७४ हो" []
    "२०७४".data (by decide) (by decide) (by decide)
  simpa using h

/-! ### C2 — clause completeness -/

/-- The clause id the segmenter derives from a content line, when the line
matches the clause pattern. -/
def clauseIdOf (l : String) : Option String :=
  (clauseMatch l).map (fun g => nepali_to_english_num g.1)

lemma detectGo_map_id (ls : List String) :
    ∀ (cur : Option Clause) (acc : List Clause),
      (detectGo ls cur acc).map Clause.clause_id =
        acc.map Clause.clause_id ++ (cur.map Clause.clause_id).toList ++
          ls.filterMap clauseIdOf := by
  induction ls with
  | nil =>
    intro cur acc
    cases cur <;> simp [detectGo]
  | cons l rest ih =>
    intro cur acc
    rcases hm : clauseMatch l with _ | ⟨g, after⟩
    · cases cur with
      | none =>
        simp only [detectGo, hm]
        rw [ih]
        simp [clauseIdOf, hm]
      | some c =>
        simp only [detectGo, hm]
        rw [ih]
        simp [clauseIdOf, hm]
    · simp only [detectGo, hm]
      rw [ih]
      cases cur <;> simp [clauseIdOf, hm]

lemma detect_clauses_map_id (c : String) :
    (detect_clauses c).map Clause.clause_id = (pySplitLines c).filterMap clauseIdOf := by
  unfold detect_clauses
  rw [detectGo_map_id]
  simp

/-- A section is coherent with the clause segmenter: its stored clause
list is exactly what `detect_clauses` yields on its stored content. -/
def SecOK (s : Section) : Prop := s.clauses = detect_clauses s.content

def ChapOK (c : Chapter) : Prop := ∀ s ∈ c.sections, SecOK s

def PartOK (p : Part) : Prop := ∀ c ∈ p.chapters, ChapOK c

lemma detect_clauses_empty : detect_clauses "" = [] := by decide

lemma finalize_SecOK {sep : Char} {s : Section} {buf : List String}
    (h : s.clauses = []) : SecOK (finalizeSectionWith sep s buf) := by
  unfold SecOK finalizeSectionWith
  dsimp only
  by_cases hc : (detect_clauses (joinLines sep buf)).isEmpty = true
  · rw [if_pos hc, h, List.isEmpty_iff.mp hc]
  · rw [if_neg hc]

lemma flush_section_ChapOK (sec : Option Section) (ch : Option Chapter) (buf : List String)
    (hch : ∀ c, ch = some c → ChapOK c) (hsec : ∀ s, sec = some s → s.clauses = []) :
    ∀ c, flush_section sec ch buf = some c → ChapOK c := by
  intro c h
  cases sec with
  | none => exact hch c h
  | some s =>
    cases ch with
    | none => exact Option.noConfusion h
    | some c0 =>
      rw [← Option.some.inj h]
      intro s' hs'
      rcases List.mem_append.mp hs' with hs' | hs'
      · exact hch c0 rfl s' hs'
      · rw [List.mem_singleton.mp hs']
        exact finalize_SecOK (hsec s rfl)

lemma flush_chapter_inv (ch : Option Chapter) (part : Option Part) (actCh : List Chapter)
    (hch : ∀ c, ch = some c → ChapOK c) (hpart : ∀ p, part = some p → PartOK p)
    (hact : ∀ c ∈ actCh, ChapOK c) :
    (∀ p, (flush_chapter ch part actCh).1 = some p → PartOK p) ∧
    (∀ c ∈ (flush_chapter ch part actCh).2, ChapOK c) := by
  cases ch with
  | none => exact ⟨hpart, hact⟩
  | some c =>
    cases part with
    | none =>
      refine ⟨fun p hp => Option.noConfusion hp, fun c' hc' => ?_⟩
      rcases List.mem_append.mp hc' with hc' | hc'
      · exact hact c' hc'
      · rw [List.mem_singleton.mp hc']
        exact hch c rfl
    | some p =>
      refine ⟨fun p' hp' => ?_, hact⟩
      rw [← Option.some.inj hp']
      intro c' hc'
      rcases List.mem_append.mp hc' with hc' | hc'
      · exact hpart p rfl c' hc'
      · rw [List.mem_singleton.mp hc']
        exact hch c rfl

lemma flush_part_inv {part : Option Part} {actP : List Part}
    (hpart : ∀ p, part = some p → PartOK p) (hact : ∀ p ∈ actP, PartOK p) :
    ∀ p ∈ flush_part part actP, PartOK p := by
  intro p hp
  cases part with
  | none => exact hact p hp
  | some q =>
    rcases List.mem_append.mp hp with hp | hp
    · exact hact p hp
    · rw [List.mem_singleton.mp hp]
      exact hpart q rfl

/-- Clause-coherence invariant of the strict pass's state. -/
def StrictInvC (st : StrictState) : Prop :=
  (∀ p ∈ st.actParts, PartOK p) ∧ (∀ c ∈ st.actChapters, ChapOK c) ∧
    (∀ p, st.curPart = some p → PartOK p) ∧ (∀ c, st.curChapter = some c → ChapOK c) ∧
    (∀ s, st.curSection = some s → s.clauses = [])

lemma strictStep_invC {lines : List String} {i : Nat} {line : String} {st : StrictState}
    (hst : StrictInvC st) : StrictInvC (strictStep lines i line st) := by
  obtain ⟨h1, h2, h3, h4, h5⟩ := hst
  have hflush := flush_section_ChapOK st.curSection st.curChapter st.buffer h4 h5
  have hfc := flush_chapter_inv (flush_section st.curSection st.curChapter st.buffer)
    st.curPart st.actChapters hflush h3 h2
  unfold strictStep
  by_cases hp : part_pattern line = true
  · rw [if_pos hp]
    refine ⟨?_, ?_, ?_, ?_, ?_⟩
    · exact flush_part_inv hfc.1 h1
    · exact hfc.2
    · intro p hp'
      rw [← Option.some.inj hp']
      intro c hc
      exact absurd hc (List.not_mem_nil c)
    · intro c hc; exact Option.noConfusion hc
    · intro s hs; exact Option.noConfusion hs
  · rw [if_neg hp]
    by_cases hc : chapter_pattern line = true
    · rw [if_pos hc]
      refine ⟨h1, hfc.2, hfc.1, ?_, ?_⟩
      · intro c hc'
        rw [← Option.some.inj hc']
        intro s hs
        exact absurd hs (List.not_mem_nil s)
      · intro s hs; exact Option.noConfusion hs
    · rw [if_neg hc]
      by_cases hs : section_pattern line = true
      · rw [if_pos hs]
        refine ⟨h1, h2, h3, hflush, ?_⟩
        intro s hs'
        rw [← Option.some.inj hs']
      · rw [if_neg hs]
        by_cases hb : st.curSection.isSome = true
        · rw [if_pos hb]; exact ⟨h1, h2, h3, h4, h5⟩
        · rw [if_neg hb]; exact ⟨h1, h2, h3, h4, h5⟩

lemma strictGo_invC (lines : List String) :
    ∀ (suffix : List String) (i : Nat) (st : StrictState),
      StrictInvC st → StrictInvC (strictGo lines i suffix st)
  | [], _, _, hst => hst
  | l :: rest, i, st, hst =>
    strictGo_invC lines rest (i + 1) (strictStep lines i l st) (strictStep_invC hst)

lemma strictRun_invC (lines : List String) :
    (∀ p ∈ (strictRun lines).1, PartOK p) ∧ (∀ c ∈ (strictRun lines).2, ChapOK c) := by
  have hinv : StrictInvC (strictGo lines 0 lines initState) :=
    strictGo_invC lines lines 0 initState
      ⟨fun p hp => absurd hp (List.not_mem_nil p), fun c hc => absurd hc (List.not_mem_nil c),
       fun p hp => Option.noConfusion hp, fun c hc => Option.noConfusion hc,
       fun s hs => Option.noConfusion hs⟩
  obtain ⟨h1, h2, h3, h4, h5⟩ := hinv
  have hflush := flush_section_ChapOK
    (strictGo lines 0 lines initState).curSection
    (strictGo lines 0 lines initState).curChapter
    (strictGo lines 0 lines initState).buffer h4 h5
  have hfc := flush_chapter_inv
    (flush_section (strictGo lines 0 lines initState).curSection
      (strictGo lines 0 lines initState).curChapter (strictGo lines 0 lines initState).buffer)
    (strictGo lines 0 lines initState).curPart
    (strictGo lines 0 lines initState).actChapters hflush h3 h2
  exact ⟨flush_part_inv hfc.1 h1, hfc.2⟩

/-- Clause-coherence invariant of the fallback pass's state. -/
def FBInvC (st : FBState) : Prop :=
  (∀ p ∈ st.actParts, PartOK p) ∧ (∀ p, st.curPart = some p → PartOK p) ∧
    (∀ c, st.curChapter = some c → ChapOK c) ∧ (∀ s, st.curSection = some s → s.clauses = [])

lemma fbFlushSecPlain_ChapOK (sec : Option Section) (ch : Option Chapter) (buf : List String)
    (hch : ∀ c, ch = some c → ChapOK c) (hsec : ∀ s, sec = some s → s.clauses = []) :
    ∀ c, fbFlushSecPlain sec ch buf = some c → ChapOK c := by
  intro c h
  cases sec with
  | none => exact hch c h
  | some s =>
    simp only [fbFlushSecPlain] at h
    by_cases hb : buf.isEmpty = true
    · rw [if_pos hb] at h; exact hch c h
    · rw [if_neg hb] at h
      cases ch with
      | none => exact Option.noConfusion h
      | some c0 =>
        rw [← Option.some.inj h]
        intro s' hs'
        rcases List.mem_append.mp hs' with hs' | hs'
        · exact hch c0 rfl s' hs'
        · rw [List.mem_singleton.mp hs']
          exact finalize_SecOK (hsec s rfl)

lemma fbFlushSecSynth_ChapOK (sec : Option Section) (ch : Option Chapter) (buf : List String)
    (hch : ∀ c, ch = some c → ChapOK c) (hsec : ∀ s, sec = some s → s.clauses = []) :
    ∀ c, fbFlushSecSynth sec ch buf = some c → ChapOK c := by
  intro c h
  cases sec with
  | none => exact hch c h
  | some s =>
    simp only [fbFlushSecSynth] at h
    by_cases hb : buf.isEmpty = true
    · rw [if_pos hb] at h; exact hch c h
    · rw [if_neg hb] at h
      rw [← Option.some.inj h]
      intro s' hs'
      rcases List.mem_append.mp hs' with hs' | hs'
      · cases hc0 : ch with
        | none =>
          rw [hc0] at hs'
          exact absurd hs' (List.not_mem_nil s')
        | some c0 =>
          rw [hc0] at hs'
          exact hch c0 hc0 s' hs'
      · rw [List.mem_singleton.mp hs']
        exact finalize_SecOK (hsec s rfl)

lemma fbAttach_PartOK (ch : Option Chapter) (part : Option Part)
    (hch : ∀ c, ch = some c → ChapOK c) (hpart : ∀ p, part = some p → PartOK p) :
    ∀ p, fbAttach ch part = some p → PartOK p := by
  intro p h
  cases ch with
  | none => exact hpart p h
  | some c =>
    cases part with
    | none => exact Option.noConfusion h
    | some p0 =>
      rw [← Option.some.inj h]
      intro c' hc'
      rcases List.mem_append.mp hc' with hc' | hc'
      · exact hpart p0 rfl c' hc'
      · rw [List.mem_singleton.mp hc']
        exact hch c rfl

lemma fbStep_invC {st : FBState} {line : String} (hst : FBInvC st) :
    FBInvC (fbStep st line) := by
  obtain ⟨h1, h2, h3, h4⟩ := hst
  have hplain := fbFlushSecPlain_ChapOK st.curSection st.curChapter st.buffer h3 h4
  have hsynth := fbFlushSecSynth_ChapOK st.curSection st.curChapter st.buffer h3 h4
  have hattach := fbAttach_PartOK
    (fbFlushSecPlain st.curSection st.curChapter st.buffer) st.curPart hplain h2
  unfold fbStep
  by_cases hp : fb_part_line line = true
  · rw [if_pos hp]
    refine ⟨flush_part_inv hattach h1, ?_, ?_, ?_⟩
    · intro p hp'
      rw [← Option.some.inj hp']
      intro c hc
      exact absurd hc (List.not_mem_nil c)
    · intro c hc; exact Option.noConfusion hc
    · intro s hs; exact Option.noConfusion hs
  · rw [if_neg hp]
    by_cases hc : fb_chapter_line line = true
    · rw [if_pos hc]
      refine ⟨h1, hattach, ?_, ?_⟩
      · intro c hc'
        rw [← Option.some.inj hc']
        intro s hs
        exact absurd hs (List.not_mem_nil s)
      · intro s hs; exact Option.noConfusion hs
    · rw [if_neg hc]
      by_cases hs : fb_section_line line = true
      · rw [if_pos hs]
        refine ⟨h1, h2, hsynth, ?_⟩
        intro s hs'
        rw [← Option.some.inj hs']
      · rw [if_neg hs]
        by_cases hb : st.curSection.isSome = true
        · rw [if_pos hb]; exact ⟨h1, h2, h3, h4⟩
        · rw [if_neg hb]; exact ⟨h1, h2, h3, h4⟩

lemma fbRun_invC (lines : List String) :
    (∀ p ∈ (fbRun lines).1, PartOK p) ∧ (∀ c ∈ (fbRun lines).2, ChapOK c) := by
  have hinv : FBInvC (lines.foldl fbStep ⟨[], none, none, none, []⟩) := by
    have h0 : FBInvC ⟨[], none, none, none, []⟩ :=
      ⟨fun p hp => absurd hp (List.not_mem_nil p), fun p hp => Option.noConfusion hp,
       fun c hc => Option.noConfusion hc, fun s hs => Option.noConfusion hs⟩
    exact List.foldlRecOn lines fbStep _ h0 (fun _ h _ _ => fbStep_invC h)
  obtain ⟨h1, h2, h3, h4⟩ := hinv
  set st := lines.foldl fbStep (⟨[], none, none, none, []⟩ : FBState) with hstdef
  have hsynth := fbFlushSecSynth_ChapOK st.curSection st.curChapter st.buffer h3 h4
  unfold fbRun fbFinish
  rw [← hstdef]
  cases hch : fbFlushSecSynth st.curSection st.curChapter st.buffer with
  | some c =>
    cases hcp : st.curPart with
    | some p =>
      refine ⟨?_, fun c' hc' => absurd hc' (List.not_mem_nil c')⟩
      intro p' hp'
      rcases List.mem_append.mp hp' with hp' | hp'
      · exact h1 p' hp'
      · rw [List.mem_singleton.mp hp']
        intro c' hc'
        rcases List.mem_append.mp hc' with hc' | hc'
        · exact h2 p hcp c' hc'
        · rw [List.mem_singleton.mp hc']
          exact hsynth c hch
    | none =>
      refine ⟨h1, fun c' hc' => ?_⟩
      rw [List.mem_singleton.mp hc']
      exact hsynth c hch
  | none =>
    cases hcp : st.curPart with
    | some p =>
      refine ⟨?_, fun c' hc' => absurd hc' (List.not_mem_nil c')⟩
      intro p' hp'
      rcases List.mem_append.mp hp' with hp' | hp'
      · exact h1 p' hp'
      · rw [List.mem_singleton.mp hp']
        exact h2 p hcp
    | none => exact ⟨h1, fun c' hc' => absurd hc' (List.not_mem_nil c')⟩

lemma parse_sections_SecOK (lines : List String) :
    ∀ s ∈ actSections (parse lines), SecOK s := by
  intro s hs
  have hparts : (∀ p ∈ (parse lines).parts, PartOK p) ∧
      (∀ c ∈ (parse lines).chapters, ChapOK c) := by
    have hp : (parse lines).parts =
        (if ((strictRun lines).1.isEmpty && (strictRun lines).2.isEmpty) = true
          then fbRun lines else strictRun lines).1 := rfl
    have hc : (parse lines).chapters =
        (if ((strictRun lines).1.isEmpty && (strictRun lines).2.isEmpty) = true
          then fbRun lines else strictRun lines).2 := rfl
    rw [hp, hc]
    by_cases h : ((strictRun lines).1.isEmpty && (strictRun lines).2.isEmpty) = true
    · rw [if_pos h]
      exact fbRun_invC lines
    · rw [if_neg h]
      exact strictRun_invC lines
  unfold actSections at hs
  rcases List.mem_append.mp hs with hs | hs
  · rw [List.mem_flatMap] at hs
    obtain ⟨p, hp, hs⟩ := hs
    rw [List.mem_flatMap] at hs
    obtain ⟨c, hc, hs⟩ := hs
    exact hparts.1 p hp c hc s hs
  · rw [List.mem_flatMap] at hs
    obtain ⟨c, hc, hs⟩ := hs
    exact hparts.2 c hc s hs

/-- C2: every Section of the returned Act (whichever pass produced it) has
exactly one Clause per content line matching the clause-opening pattern, in
the order those lines appear (witnessed by the clause-id lists agreeing),
and a Section with zero matching lines has zero Clauses (its content field,
set before segmentation, is untouched). -/
theorem c2_clause_completeness (lines : List String) (s : Section)
    (hs : s ∈ actSections (parse lines)) :
    s.clauses.map Clause.clause_id = (pySplitLines s.content).filterMap clauseIdOf ∧
    s.clauses.length = (pySplitLines s.content).countP (fun l => (clauseMatch l).isSome) ∧
    ((pySplitLines s.content).countP (fun l => (clauseMatch l).isSome) = 0 →
      s.clauses = []) := by
  have hok : s.clauses = detect_clauses s.content := parse_sections_SecOK lines s hs
  have hmap : s.clauses.map Clause.clause_id = (pySplitLines s.content).filterMap clauseIdOf := by
    rw [hok, detect_clauses_map_id]
  have hcount : (pySplitLines s.content).countP (fun l => (clauseMatch l).isSome) =
      ((pySplitLines s.content).filterMap clauseIdOf).length := by
    rw [List.length_filterMap_eq_countP]
    congr 1
    funext l
    unfold clauseIdOf
    cases clauseMatch l <;> rfl
  refine ⟨hmap, ?_, ?_⟩
  · rw [hcount, ← hmap, List.length_map]
  · intro h0
    rw [hcount, ← hmap, List.length_map] at h0
    exact List.length_eq_zero.mp h0

/-- C2 witness: the theorem applied to Scenario A's first section, which
has three matching content lines and three clauses. -/
theorem c2_clause_completeness_witness :
    sectionA1.clauses.map Clause.clause_id =
      (pySplitLines sectionA1.content).filterMap clauseIdOf ∧
    sectionA1.clauses.length =
      (pySplitLines sectionA1.content).countP (fun l => (clauseMatch l).isSome) := by
  have h := c2_clause_completeness scenarioALines sectionA1 (by decide)
  exact ⟨h.1, h.2.1⟩

/-! ### C10 — strict-pass titles reappear as the first content line -/

lemma splitCh_ne_nil (sep : Char) (cs : List Char) : splitCh sep cs ≠ [] := by
  cases cs with
  | nil => simp [splitCh]
  | cons c cs =>
    unfold splitCh
    rcases splitCh sep cs with _ | ⟨h, t⟩
    · simp
    · dsimp only
      by_cases hc : c = sep
      · rw [if_pos hc]; simp
      · rw [if_neg hc]; simp

lemma splitCh_head (sep : Char) (cs : List Char) :
    (splitCh sep cs).head? = some (cs.takeWhile (fun c => c != sep)) := by
  induction cs with
  | nil => rfl
  | cons c cs ih =>
    unfold splitCh
    rcases hsp : splitCh sep cs with _ | ⟨h, t⟩
    · exact absurd hsp (splitCh_ne_nil sep cs)
    · dsimp only
      by_cases hc : c = sep
      · rw [if_pos hc, List.takeWhile_cons]
        have : (c != sep) = false := by simp [hc]
        rw [this]
        rfl
      · rw [if_neg hc, List.takeWhile_cons]
        have hb : (c != sep) = true := by simp [hc]
        rw [hb]
        simp only [List.head?_cons, Option.some.injEq, if_true]
        rw [hsp] at ih
        simp only [List.head?_cons, Option.some.injEq] at ih
        rw [ih]

lemma takeWhile_all {sep : Char} {b : List Char} (hb : ∀ c ∈ b, ¬c = sep) :
    b.takeWhile (fun c => c != sep) = b := by
  induction b with
  | nil => rfl
  | cons x xs ih =>
    rw [List.takeWhile_cons]
    have : (x != sep) = true := by simp [hb x (List.mem_cons_self _ _)]
    rw [this]
    simp only [if_true, List.cons.injEq, true_and]
    exact ih fun c hc => hb c (List.mem_cons_of_mem _ hc)

lemma takeWhile_append_sep {sep : Char} {b l : List Char} (hb : ∀ c ∈ b, ¬c = sep) :
    (b ++ sep :: l).takeWhile (fun c => c != sep) = b := by
  induction b with
  | nil =>
    rw [List.nil_append, List.takeWhile_cons]
    simp
  | cons x xs ih =>
    rw [List.cons_append, List.takeWhile_cons]
    have : (x != sep) = true := by simp [hb x (List.mem_cons_self _ _)]
    rw [this]
    simp only [if_true, List.cons.injEq, true_and]
    exact ih fun c hc => hb c (List.mem_cons_of_mem _ hc)

lemma pySplitLines_joinLines_head {t : String} {rest : List String}
    (hnl : '\n' ∉ t.data) :
    (pySplitLines (joinLines '\n' (t :: rest))).head? = some t := by
  unfold pySplitLines joinLines
  rw [List.head?_map, splitCh_head]
  have hb : ∀ c ∈ t.data, ¬c = '\n' := fun c hc he => hnl (he ▸ hc)
  cases rest with
  | nil =>
    show some (String.mk ((joinCh '\n' [t.data]).takeWhile _)) = some t
    rw [show joinCh '\n' [t.data] = t.data from rfl, takeWhile_all hb]
  | cons r rs =>
    show some (String.mk ((joinCh '\n' (t.data :: r.data :: rs.map String.data)).takeWhile _)) =
      some t
    rw [show joinCh '\n' (t.data :: r.data :: rs.map String.data) =
      t.data ++ '\n' :: joinCh '\n' (r.data :: rs.map String.data) from rfl]
    rw [takeWhile_append_sep hb]

/-- The title-reappearance property of a section. -/
def TOK (s : Section) : Prop :=
  s.title ≠ "" → (pySplitLines s.content).head? = some s.title

def ChapT (c : Chapter) : Prop := ∀ s ∈ c.sections, TOK s

def PartT (p : Part) : Prop := ∀ c ∈ p.chapters, ChapT c

/-- Title-reappearance invariant of the strict loop at position `i`: the
open section's non-empty title is either already the first buffered line,
or — right after its creation — the next line to be processed (which is
known not to be a marker line). -/
def StrictInvT (lines : List String) (i : Nat) (st : StrictState) : Prop :=
  (∀ p ∈ st.actParts, PartT p) ∧ (∀ c ∈ st.actChapters, ChapT c) ∧
    (∀ p, st.curPart = some p → PartT p) ∧ (∀ c, st.curChapter = some c → ChapT c) ∧
    (∀ b ∈ st.buffer, b ∈ lines) ∧
    (∀ s, st.curSection = some s → s.title ≠ "" →
      s.title ∈ lines ∧
        (st.buffer.head? = some s.title ∨
          (st.buffer = [] ∧ lines[i]? = some s.title ∧ part_pattern s.title = false ∧
            chapter_pattern s.title = false ∧ section_pattern s.title = false)))

lemma finalize_TOK {s : Section} {buf : List String}
    (hhead : buf.head? = some s.title) (hnl : '\n' ∉ s.title.data) :
    TOK (finalizeSectionWith '\n' s buf) := by
  intro _
  obtain ⟨rest, hrest⟩ : ∃ t, buf = s.title :: t := by
    cases buf with
    | nil => exact Option.noConfusion hhead
    | cons x xs => exact ⟨xs, by rw [Option.some.inj hhead]⟩
  show (pySplitLines (joinLines '\n' buf)).head? = some s.title
  rw [hrest]
  exact pySplitLines_joinLines_head hnl

lemma flush_section_ChapT {lines : List String} (hnl : ∀ l ∈ lines, '\n' ∉ l.data)
    {sec : Option Section} {ch : Option Chapter} {buf : List String}
    (hch : ∀ c, ch = some c → ChapT c)
    (hsec : ∀ s, sec = some s → s.title ≠ "" →
      s.title ∈ lines ∧ buf.head? = some s.title) :
    ∀ c, flush_section sec ch buf = some c → ChapT c := by
  intro c h
  cases sec with
  | none => exact hch c h
  | some s =>
    cases ch with
    | none => exact Option.noConfusion h
    | some c0 =>
      rw [← Option.some.inj h]
      intro s' hs'
      rcases List.mem_append.mp hs' with hs' | hs'
      · exact hch c0 rfl s' hs'
      · rw [List.mem_singleton.mp hs']
        intro ht
        have hs2 := hsec s rfl ht
        exact finalize_TOK hs2.2 (hnl s.title hs2.1) ht

lemma flush_chapter_forallT {ch : Option Chapter} {part : Option Part} {actCh : List Chapter}
    (hch : ∀ c, ch = some c → ChapT c) (hpart : ∀ p, part = some p → PartT p)
    (hact : ∀ c ∈ actCh, ChapT c) :
    (∀ p, (flush_chapter ch part actCh).1 = some p → PartT p) ∧
    (∀ c ∈ (flush_chapter ch part actCh).2, ChapT c) := by
  cases ch with
  | none => exact ⟨hpart, hact⟩
  | some c =>
    cases part with
    | none =>
      refine ⟨fun p hp => Option.noConfusion hp, fun c' hc' => ?_⟩
      rcases List.mem_append.mp hc' with hc' | hc'
      · exact hact c' hc'
      · rw [List.mem_singleton.mp hc']
        exact hch c rfl
    | some p =>
      refine ⟨fun p' hp' => ?_, hact⟩
      rw [← Option.some.inj hp']
      intro c' hc'
      rcases List.mem_append.mp hc' with hc' | hc'
      · exact hpart p rfl c' hc'
      · rw [List.mem_singleton.mp hc']
        exact hch c rfl

lemma flush_part_forallT {part : Option Part} {actP : List Part}
    (hpart : ∀ p, part = some p → PartT p) (hact : ∀ p ∈ actP, PartT p) :
    ∀ p ∈ flush_part part actP, PartT p := by
  intro p hp
  cases part with
  | none => exact hact p hp
  | some q =>
    rcases List.mem_append.mp hp with hp | hp
    · exact hact p hp
    · rw [List.mem_singleton.mp hp]
      exact hpart q rfl

lemma strictStep_invT {lines : List String} {i : Nat} {l : String} {st : StrictState}
    (hnl : ∀ x ∈ lines, '\n' ∉ x.data) (hl : lines[i]? = some l)
    (hst : StrictInvT lines i st) : StrictInvT lines (i + 1) (strictStep lines i l st) := by
  obtain ⟨h1, h2, h3, h4, h5, h6⟩ := hst
  have hlm : l ∈ lines := List.getElem?_mem hl
  -- On a marker line, the open section's title cannot still be waiting in
  -- the stream (the waiting line is l itself and is marker-free), so its
  -- title is already buffered.
  have hsecOnMarker : (part_pattern l = true ∨ chapter_pattern l = true ∨
      section_pattern l = true) →
      ∀ s, st.curSection = some s → s.title ≠ "" →
        s.title ∈ lines ∧ st.buffer.head? = some s.title := by
    intro hmark s hs ht
    obtain ⟨htl, hdis⟩ := h6 s hs ht
    refine ⟨htl, ?_⟩
    rcases hdis with hdis | ⟨_, hread, hnp, hnc, hns⟩
    · exact hdis
    · exfalso
      have : l = s.title := Option.some.inj (hl.symm.trans hread)
      rcases hmark with hm | hm | hm <;> rw [this] at hm
      · rw [hnp] at hm; exact Bool.false_ne_true hm
      · rw [hnc] at hm; exact Bool.false_ne_true hm
      · rw [hns] at hm; exact Bool.false_ne_true hm
  -- The freshly created section of the Section branch satisfies the
  -- look-ahead disjunct at position i+1.
  have hnew : get_title_after lines i ≠ "" →
      get_title_after lines i ∈ lines ∧
        lines[i+1]? = some (get_title_after lines i) ∧
        part_pattern (get_title_after lines i) = false ∧
        chapter_pattern (get_title_after lines i) = false ∧
        section_pattern (get_title_after lines i) = false := by
    intro ht
    unfold get_title_after at ht ⊢
    cases hnext : lines[i+1]? with
    | none =>
      rw [hnext] at ht
      exact absurd rfl ht
    | some next =>
      rw [hnext] at ht
      dsimp only at ht ⊢
      by_cases hm : (part_pattern next || chapter_pattern next || section_pattern next) = true
      · rw [if_pos hm] at ht; exact absurd rfl ht
      · rw [if_neg hm] at ht ⊢
        simp only [Bool.or_eq_true, not_or, Bool.not_eq_true] at hm
        exact ⟨List.getElem?_mem hnext, rfl, hm.1.1, hm.1.2, hm.2⟩
  unfold strictStep
  by_cases hp : part_pattern l = true
  · rw [if_pos hp]
    have hflush := flush_section_ChapT hnl h4 (hsecOnMarker (Or.inl hp))
    have hfc := flush_chapter_forallT hflush h3 h2
    refine ⟨flush_part_forallT hfc.1 h1, hfc.2, ?_, ?_, ?_, ?_⟩
    · intro p hp'
      rw [← Option.some.inj hp']
      intro c hc
      exact absurd hc (List.not_mem_nil c)
    · intro c hc; exact Option.noConfusion hc
    · intro b hb; exact absurd hb (List.not_mem_nil b)
    · intro s hs; exact Option.noConfusion hs
  · rw [if_neg hp]
    by_cases hc : chapter_pattern l = true
    · rw [if_pos hc]
      have hflush := flush_section_ChapT hnl h4 (hsecOnMarker (Or.inr (Or.inl hc)))
      have hfc := flush_chapter_forallT hflush h3 h2
      refine ⟨h1, hfc.2, hfc.1, ?_, ?_, ?_⟩
      · intro c' hc'
        rw [← Option.some.inj hc']
        intro s hs
        exact absurd hs (List.not_mem_nil s)
      · intro b hb; exact absurd hb (List.not_mem_nil b)
      · intro s hs; exact Option.noConfusion hs
    · rw [if_neg hc]
      by_cases hsp : section_pattern l = true
      · rw [if_pos hsp]
        have hflush := flush_section_ChapT hnl h4 (hsecOnMarker (Or.inr (Or.inr hsp)))
        refine ⟨h1, h2, h3, hflush, ?_, ?_⟩
        · intro b hb; exact absurd hb (List.not_mem_nil b)
        · intro s hs ht
          rw [← Option.some.inj hs] at ht ⊢
          have hn := hnew ht
          exact ⟨hn.1, Or.inr ⟨rfl, hn.2.1, hn.2.2.1, hn.2.2.2.1, hn.2.2.2.2⟩⟩
      · rw [if_neg hsp]
        by_cases hb : st.curSection.isSome = true
        · rw [if_pos hb]
          refine ⟨h1, h2, h3, h4, ?_, ?_⟩
          · intro b hbm
            rcases List.mem_append.mp hbm with hbm | hbm
            · exact h5 b hbm
            · rw [List.mem_singleton.mp hbm]; exact hlm
          · intro s hs ht
            obtain ⟨htl, hdis⟩ := h6 s hs ht
            refine ⟨htl, Or.inl ?_⟩
            rcases hdis with hdis | ⟨hbuf, hread, -⟩
            · rw [List.head?_append, hdis]; rfl
            · have : l = s.title := Option.some.inj (hl.symm.trans hread)
              rw [hbuf, List.nil_append, this]
              rfl
        · rw [if_neg hb]
          refine ⟨h1, h2, h3, h4, h5, ?_⟩
          intro s hs
          exfalso
          rw [hs] at hb
          exact hb rfl

lemma strictGo_invT {lines : List String} (hnl : ∀ x ∈ lines, '\n' ∉ x.data) :
    ∀ (suffix : List String) (i : Nat) (st : StrictState),
      lines.drop i = suffix → StrictInvT lines i st →
      ∃ j, lines[j]? = none ∧ StrictInvT lines j (strictGo lines i suffix st) := by
  intro suffix
  induction suffix with
  | nil =>
    intro i st hdrop hst
    refine ⟨i, ?_, hst⟩
    exact List.getElem?_eq_none_iff.mpr (List.drop_eq_nil_iff.mp hdrop)
  | cons l rest ih =>
    intro i st hdrop hst
    have hl : lines[i]? = some l := by
      have h0 : (lines.drop i)[0]? = lines[i + 0]? := List.getElem?_drop lines i 0
      rw [hdrop] at h0
      simpa using h0.symm
    have hdrop' : lines.drop (i + 1) = rest := by
      have : lines.drop (i + 1) = (lines.drop i).drop 1 := by
        rw [List.drop_drop]
      rw [this, hdrop]
      rfl
    exact ih (i + 1) _ hdrop' (strictStep_invT hnl hl hst)

/-- C10: in the strict pass the successor line used as a marker's title is
not consumed — it is processed again as an ordinary line.  Hence every
Section in the strict pass's output with a non-empty title has that title
as the first newline-separated line of its content (so the title is also
among the lines the clause segmenter sees).  The hypothesis that input
lines contain no newline character matches the input contract (trimmed
single lines). -/
theorem c10_title_reappears (lines : List String)
    (hnl : ∀ x ∈ lines, '\n' ∉ x.data) (s : Section)
    (hs : s ∈ actSections (strictAct lines)) (ht : s.title ≠ "") :
    (pySplitLines s.content).head? = some s.title := by
  have hinit : StrictInvT lines 0 initState :=
    ⟨fun p hp => absurd hp (List.not_mem_nil p), fun c hc => absurd hc (List.not_mem_nil c),
     fun p hp => Option.noConfusion hp, fun c hc => Option.noConfusion hc,
     fun b hb => absurd hb (List.not_mem_nil b), fun s' hs' => Option.noConfusion hs'⟩
  obtain ⟨j, hj, hinv⟩ := strictGo_invT hnl lines 0 initState (by rfl) hinit
  obtain ⟨h1, h2, h3, h4, h5, h6⟩ := hinv
  have hsecEnd : ∀ s', (strictGo lines 0 lines initState).curSection = some s' →
      s'.title ≠ "" → s'.title ∈ lines ∧
        (strictGo lines 0 lines initState).buffer.head? = some s'.title := by
    intro s' hs' ht'
    obtain ⟨htl, hdis⟩ := h6 s' hs' ht'
    refine ⟨htl, ?_⟩
    rcases hdis with hdis | ⟨-, hread, -⟩
    · exact hdis
    · rw [hj] at hread
      exact Option.noConfusion hread
  have hflush := flush_section_ChapT hnl h4 hsecEnd
  have hfc := flush_chapter_forallT hflush h3 h2
  have hout : (∀ p ∈ (strictRun lines).1, PartT p) ∧
      (∀ c ∈ (strictRun lines).2, ChapT c) := by
    unfold strictRun strictFinish
    exact ⟨flush_part_forallT hfc.1 h1, hfc.2⟩
  have hsec : TOK s := by
    unfold strictAct actSections at hs
    dsimp only at hs
    rcases List.mem_append.mp hs with hmem | hmem
    · rw [List.mem_flatMap] at hmem
      obtain ⟨p, hp, hmem⟩ := hmem
      rw [List.mem_flatMap] at hmem
      obtain ⟨c, hc, hmem⟩ := hmem
      exact hout.1 p hp c hc s hmem
    · rw [List.mem_flatMap] at hmem
      obtain ⟨c, hc, hmem⟩ := hmem
      exact hout.2 c hc s hmem
  exact hsec ht

/-- C10 witness: Scenario A's first strict-pass section carries title
`खण्ड शीर्षक`, and that title is the first newline-separated line of its
content. -/
theorem c10_title_reappears_witness :
    (pySplitLines sectionA1.content).head? = some sectionA1.title :=
  c10_title_reappears scenarioALines (by decide) sectionA1 (by decide) (by decide)

end NepaliLegalParser
